import Mathlib

/-
Verification of the multipole field-expansion algebra and multiple-scattering
linear-system engine of the smuthi repository (files smuthi/field_expansion.py
and smuthi/linear_system.py), as a shallow embedding in Lean 4.

Modelling conventions:
* Machine floats and complex numbers that only participate in equality tests or
  in exactly representable arithmetic are modelled as rationals; a complex
  number is a pair (re, im) of rationals.  Where genuine linear algebra over
  the complex numbers is needed (the master operator), Mathlib complex numbers
  are used.
* Fallible Python code (raise statements, TypeErrors from ill-typed operations)
  is modelled with Except String.
* External collaborators (special-function backend, coupling block providers,
  lookup tables, T-matrix provider) are passed as explicit function arguments,
  exactly as the source accepts caller-supplied tables in its optional
  arguments; their values are never inspected.
-/

namespace Smuthi

/-- Complex numbers with exactly representable coordinates, used for the parts
of the embedding where only equality tests and ring operations occur. -/
abbrev Cplx := ℚ × ℚ

/-- Complex multiplication on coordinate pairs. -/
def cmul (a b : Cplx) : Cplx := (a.1 * b.1 - a.2 * b.2, a.1 * b.2 + a.2 * b.1)

/-! ## Index mapper (smuthi/field_expansion.py, multi_to_single_index and blocksize) -/

/-- Size of one polarization block: the quantity tau_blocksize computed in
multi_to_single_index. -/
def tau_blocksize (l_max m_max : ℤ) : ℤ :=
  m_max * (m_max + 2) + (l_max - m_max) * (2 * m_max + 1)

/-- Translation of multi_to_single_index: tau * tau_blocksize, plus the
cumulative count of rows of smaller degree (two branches according to whether
l - 1 <= m_max), plus the in-row offset m + min l m_max. -/
def multi_to_single_index (tau l m l_max m_max : ℤ) : ℤ :=
  tau * tau_blocksize l_max m_max
    + (if l - 1 ≤ m_max then (l - 1) * (l - 1 + 2)
       else m_max * (m_max + 2) + (l - 1 - m_max) * (2 * m_max + 1))
    + m + min l m_max

/-- Translation of blocksize: the maximal single index plus one. -/
def blocksize (l_max m_max : ℤ) : ℤ :=
  multi_to_single_index 1 l_max m_max l_max m_max + 1

/-- The cumulative degree offset appearing inside multi_to_single_index,
as a function of the degree l alone. -/
def degree_offset (m_max l : ℤ) : ℤ :=
  if l - 1 ≤ m_max then (l - 1) * (l - 1 + 2)
  else m_max * (m_max + 2) + (l - 1 - m_max) * (2 * m_max + 1)

/-- A triple (tau, l, m) is admissible for cutoffs (l_max, m_max) when tau is a
polarization index, 1 <= l <= l_max and the order respects |m| <= min l m_max.
These are the preconditions documented for multi_to_single_index. -/
def validTriple (l_max m_max : ℤ) (t : ℤ × ℤ × ℤ) : Prop :=
  (t.1 = 0 ∨ t.1 = 1) ∧ 1 ≤ t.2.1 ∧ t.2.1 ≤ l_max ∧ |t.2.2| ≤ min t.2.1 m_max

instance (l_max m_max : ℤ) (t : ℤ × ℤ × ℤ) : Decidable (validTriple l_max m_max t) := by
  unfold validTriple; infer_instance

/-! ## Spherical wave expansions (smuthi/field_expansion.py, SphericalWaveExpansion) -/

/-- Data of a SphericalWaveExpansion object: wavenumber, cutoffs, coefficient
vector, kind tag (the attribute named type in the source, a string or None),
reference point and optional z-validity interval. -/
structure SphericalWaveExpansion where
  k : Cplx
  l_max : ℤ
  m_max : ℤ
  coefficients : List Cplx
  type : Option String
  reference_point : ℚ × ℚ × ℚ
  valid_between : Option (ℚ × ℚ)

/-- Translation of SphericalWaveExpansion.__add__.  The consistency guard
compares k, l_max, m_max, type and reference_point and raises ValueError on
mismatch.  The validity interval of the sum: when self.valid_between is falsy
(None) the result carries None; otherwise the source evaluates min and max of
both operand tuples, which raises a TypeError when other.valid_between is
None.  Coefficients are added entrywise. -/
def sweAdd (a b : SphericalWaveExpansion) : Except String SphericalWaveExpansion :=
  if a.k = b.k ∧ a.l_max = b.l_max ∧ a.m_max = b.m_max ∧ a.type = b.type
      ∧ a.reference_point = b.reference_point then
    match a.valid_between with
    | none =>
        .ok { k := a.k, l_max := a.l_max, m_max := a.m_max,
              coefficients := List.zipWith (fun x y => x + y) a.coefficients b.coefficients,
              type := a.type, reference_point := a.reference_point, valid_between := none }
    | some av =>
        match b.valid_between with
        | none => .error "TypeError: NoneType is not iterable"
        | some bv =>
            .ok { k := a.k, l_max := a.l_max, m_max := a.m_max,
                  coefficients := List.zipWith (fun x y => x + y) a.coefficients b.coefficients,
                  type := a.type, reference_point := a.reference_point,
                  valid_between := some (max (min av.1 av.2) (min bv.1 bv.2),
                                         min (max av.1 av.2) (max bv.1 bv.2)) }
  else .error "SphericalWaveExpansions are inconsistent."

/-! ## Plane wave expansions (smuthi/field_expansion.py, PlaneWaveExpansion) -/

/-- Data of a PlaneWaveExpansion object.  The coefficient array of shape
(2, len k_parallel, len azimuthal_angles) is modelled as a curried function of
the three indices; the sample grids record the shape. -/
structure PlaneWaveExpansion where
  k : Cplx
  k_parallel : List Cplx
  azimuthal_angles : List ℚ
  type : Option String
  reference_point : ℚ × ℚ × ℚ
  valid_between : Option (ℚ × ℚ)
  coefficients : ℕ → ℕ → ℕ → Cplx

/-- Semantics of the guard expression all(xs == ys) on one-dimensional numpy
arrays, as used by PlaneWaveExpansion.__add__: equal lengths give the
elementwise test; a length-one array broadcasts against the other; arrays of
incompatible lengths make the elementwise comparison collapse to a single
False, on which the all(...) call raises a TypeError. -/
def npAllEq {α : Type} [DecidableEq α] : List α → List α → Except String Bool
  | [x], ys => .ok (ys.all (fun y => decide (y = x)))
  | xs, [y] => .ok (xs.all (fun x => decide (x = y)))
  | xs, ys =>
      if xs.length = ys.length then .ok (decide (xs = ys))
      else .error "TypeError: bool object is not iterable"

/-- Numpy broadcasting of one axis: equal extents, or extent one against any
other extent. -/
def bcastDim (n m : ℕ) : Option ℕ :=
  if n = m then some n else if n = 1 then some m else if m = 1 then some n else none

/-- Numpy addition of two coefficient arrays of shapes (2, nka, naa) and
(2, nkb, nab): the two trailing axes broadcast independently; incompatible
extents raise a ValueError. -/
def npBroadcastAdd (nka naa nkb nab : ℕ) (f g : ℕ → ℕ → ℕ → Cplx) :
    Except String (ℕ → ℕ → ℕ → Cplx) :=
  match bcastDim nka nkb, bcastDim naa nab with
  | some _, some _ =>
      .ok (fun p i j => f p (if nka = 1 then 0 else i) (if naa = 1 then 0 else j)
                        + g p (if nkb = 1 then 0 else i) (if nab = 1 then 0 else j))
  | _, _ => .error "ValueError: operands could not be broadcast together"

/-- The consistency guard of PlaneWaveExpansion.__add__, evaluated with the
short-circuit semantics of the source expression
self.k == other.k and all(...) and all(...) and self.type == other.type and
self.reference_point == other.reference_point: a differing wavenumber skips
the array comparisons entirely; the array comparisons may raise a TypeError,
which propagates. -/
def pweGuard (a b : PlaneWaveExpansion) : Except String Bool :=
  if a.k = b.k then
    match npAllEq a.k_parallel b.k_parallel with
    | .error e => .error e
    | .ok false => .ok false
    | .ok true =>
        match npAllEq a.azimuthal_angles b.azimuthal_angles with
        | .error e => .error e
        | .ok false => .ok false
        | .ok true =>
            .ok (decide (a.type = b.type) && decide (a.reference_point = b.reference_point))
  else .ok false

/-- Translation of PlaneWaveExpansion.__add__.  A failed guard raises
ValueError; afterwards the validity interval of the sum is computed from min
and max of both operand intervals (TypeError when one is None) and the
coefficient arrays are added by numpy broadcasting.  The sum object carries
the grids of the left operand. -/
def pweAdd (a b : PlaneWaveExpansion) : Except String PlaneWaveExpansion :=
  match pweGuard a b with
  | .error e => .error e
  | .ok false => .error "Plane wave expansion are inconsistent."
  | .ok true =>
      match a.valid_between, b.valid_between with
      | some av, some bv =>
          match npBroadcastAdd a.k_parallel.length a.azimuthal_angles.length
              b.k_parallel.length b.azimuthal_angles.length
              a.coefficients b.coefficients with
          | .error e => .error e
          | .ok c =>
              .ok { k := a.k, k_parallel := a.k_parallel,
                    azimuthal_angles := a.azimuthal_angles, type := a.type,
                    reference_point := a.reference_point,
                    valid_between := some (max (min av.1 av.2) (min bv.1 bv.2),
                                           min (max av.1 av.2) (max bv.1 bv.2)),
                    coefficients := c }
      | _, _ => .error "TypeError: NoneType is not iterable"

/-! ## PWE to SWE conversion (smuthi/field_expansion.py, pwe_to_swe_conversion) -/

/-- Translation of pwe_to_swe_conversion.  The function first performs the
domain-validity check on the z-coordinate of the target reference point
against min and max of the declared validity bounds of the plane wave
expansion (a None interval makes the min call raise a TypeError), and only
then builds the regular spherical wave expansion; the coefficient integral is
an external numeric computation and is received as a thunk that the error
branches never force. -/
def pwe_to_swe_conversion (pwe : PlaneWaveExpansion) (l_max m_max : ℤ)
    (reference_point : ℚ × ℚ × ℚ) (computeCoefficients : Unit → List Cplx) :
    Except String SphericalWaveExpansion :=
  match pwe.valid_between with
  | none => .error "TypeError: NoneType is not iterable"
  | some v =>
      if reference_point.2.2 < min v.1 v.2 ∨ reference_point.2.2 > max v.1 v.2 then
        .error "reference point not inside domain of pwe validity"
      else
        .ok { k := pwe.k, l_max := l_max, m_max := m_max,
              coefficients := computeCoefficients (),
              type := some "regular", reference_point := reference_point,
              valid_between := none }

/-! ## SVWF translation coefficients
(smuthi/field_expansion.py, translation_coefficients_svwf and
translation_coefficients_svwf_out_to_out)

Both functions accept caller-supplied tables for the radial functions, the
normalized Legendre functions, and the azimuthal phase factor, which the
embedding takes as explicit arguments; the coefficients a5 and b5 are produced
by ab5_coefficients through the external Wigner 3j backend and are likewise
supplied as a table. -/

/-- A Python runtime value as far as the accumulator of the translation loops
is concerned: a complex scalar or a tuple. -/
inductive PyVal where
  | c (z : Cplx)
  | tup (xs : List PyVal)

/-- Python addition on such values: complex plus complex adds, tuple plus
tuple concatenates, and mixing a tuple with a complex raises a TypeError. -/
def pyAdd : PyVal → PyVal → Except String PyVal
  | .c a, .c b => .ok (.c (a + b))
  | .tup xs, .tup ys => .ok (.tup (xs ++ ys))
  | .tup _, .c _ => .error "TypeError: can only concatenate tuple (not complex) to tuple"
  | .c _, .tup _ => .error "TypeError: unsupported operand type for +"

/-- Python multiplication of a complex scalar with such a value: scalar times
scalar multiplies; scalar times tuple raises a TypeError. -/
def pyScale (z : Cplx) : PyVal → Except String PyVal
  | .c a => .ok (.c (cmul z a))
  | .tup _ => .error "TypeError: cannot multiply complex and tuple"

/-- The summand of both translation loops for summation degree ld: the
coupling coefficient a5 (equal polarizations) or b5 (mixed polarizations)
times the radial function of degree ld times the normalized Legendre function
of degree ld and order |m1 - m2|. -/
def translationTerm (tau1 tau2 : ℤ) (m1 m2 : ℤ) (radial : ℕ → Cplx)
    (legendre : ℕ → ℕ → Cplx) (ab5 : ℕ → Cplx × Cplx) (ld : ℕ) : Cplx :=
  cmul (cmul (if tau1 = tau2 then (ab5 ld).1 else (ab5 ld).2) (radial ld))
       (legendre ld (m1 - m2).natAbs)

/-- The loop range of both translation functions: range(abs(l1 - l2),
l1 + l2 + 1). -/
def translationRange (l1 l2 : ℕ) : List ℕ :=
  List.range' (Nat.dist l1 l2) (l1 + l2 + 1 - Nat.dist l1 l2)

/-- Translation of translation_coefficients_svwf (outgoing to regular): the
accumulator starts from the complex scalar zero, the loop adds one summand per
degree in the range, and the azimuthal phase multiplies the result. -/
def translation_coefficients_svwf (tau1 : ℤ) (l1 : ℕ) (m1 : ℤ) (tau2 : ℤ) (l2 : ℕ) (m2 : ℤ)
    (eimph : Cplx) (sph_hankel : ℕ → Cplx) (legendre : ℕ → ℕ → Cplx)
    (ab5 : ℕ → Cplx × Cplx) : Cplx :=
  cmul eimph
    ((translationRange l1 l2).foldl
      (fun A ld => A + translationTerm tau1 tau2 m1 m2 sph_hankel legendre ab5 ld) (0, 0))

/-- Translation of translation_coefficients_svwf_out_to_out (outgoing to
outgoing): identical loop with spherical Bessel radial functions, except that
the source starts the accumulator from the expression
complex(0), complex(0) which is a pair, so each loop iteration performs a
Python addition of a tuple and a complex scalar. -/
def translation_coefficients_svwf_out_to_out (tau1 : ℤ) (l1 : ℕ) (m1 : ℤ) (tau2 : ℤ)
    (l2 : ℕ) (m2 : ℤ) (eimph : Cplx) (sph_bessel : ℕ → Cplx) (legendre : ℕ → ℕ → Cplx)
    (ab5 : ℕ → Cplx × Cplx) : Except String PyVal := do
  let A ← (translationRange l1 l2).foldlM
    (fun A ld => pyAdd A (.c (translationTerm tau1 tau2 m1 m2 sph_bessel legendre ab5 ld)))
    (PyVal.tup [.c (0, 0), .c (0, 0)])
  pyScale eimph A

/-! ## Coupling matrix construction and solver strategy selection
(smuthi/linear_system.py, CouplingMatrix.__init__ and LinearSystem.solve) -/

/-- Which linear operator CouplingMatrix.__init__ ends up building: a
materialized dense matrix wrapped as a MatrixLinearOperator, or the
matrix-free callback operator. -/
inductive CouplingStrategy where
  | denseMatrix
  | lookupOperator
deriving DecidableEq

/-- Control flow of CouplingMatrix.__init__ as a function of the store_matrix
flag, the lookup_resolution option and the list of particle z-coordinates.
With a lookup resolution the coplanarity test z_list.count(z_list[0]) ==
len(z_list) runs first (an empty particle list makes the subscript raise an
IndexError; a failed test raises NotImplementedError).  Then store_matrix
selects between the dense matrix (only without lookup resolution, otherwise
NotImplementedError) and the matrix-free operator. -/
def couplingMatrixInit (store_matrix : Bool) (lookup_resolution : Option ℚ)
    (z_list : List ℚ) : Except String CouplingStrategy :=
  match lookup_resolution with
  | some _ =>
      match z_list with
      | [] => .error "IndexError: list index out of range"
      | z0 :: _ =>
          if z_list.count z0 = z_list.length then
            if store_matrix then .error "lookups not yet implemtned"
            else .ok .lookupOperator
          else .error "3D lookup not yet implemented"
  | none =>
      if store_matrix then .ok .denseMatrix else .ok .lookupOperator

/-- Whether the master matrix operator carries the dense attribute A: true
exactly when the coupling operator was materialized, because MasterMatrix then
assembles a dense matrix as well. -/
def masterIsDense : CouplingStrategy → Bool
  | .denseMatrix => true
  | .lookupOperator => false

/-- Strategy dispatch of LinearSystem.solve: everything is guarded by a
positive particle count; with solver type LU the dense attribute of the master
operator is required, otherwise a ValueError is raised; gmres accepts any
operator; other solver types raise. -/
def solveStrategyCheck (particle_count : ℕ) (strategy : CouplingStrategy)
    (solver_type : String) : Except String Unit :=
  if particle_count > 0 then
    if solver_type = "LU" then
      if masterIsDense strategy then .ok ()
      else .error "LU factorization only possible with the option \"store coupling matrix\"."
    else if solver_type = "gmres" then .ok ()
    else .error "This solver type is currently not implemented."
  else .ok ()

/-! ## LU factorization caching (smuthi/linear_system.py, LinearSystem.solve)

The dense master matrix of a one-particle system with a one-dimensional
coefficient block is a single number 1 - t * w; the factorization returned by
lu_factor is modelled by the matrix it was computed from, since the claim is
about which matrix the cached factorization belongs to. -/

/-- State relevant to the LU cache of a linear system: the currently set
particle T-matrix and coupling entries, the master matrix that was
materialized from them at construction time, and the optional cached
factorization stored as the LU_piv attribute. -/
structure LinearSystemModel where
  tmat : ℚ
  wmat : ℚ
  masterA : ℚ
  luCache : Option ℚ

/-- The data lu_factor extracts from a matrix, identified by that matrix. -/
def lu_factor (a : ℚ) : ℚ := a

/-- Construction of the linear system: T-matrices and the coupling operator
are computed, the master matrix 1 - t * w is materialized, and no LU_piv
attribute exists yet. -/
def linear_system_init (t w : ℚ) : LinearSystemModel :=
  { tmat := t, wmat := w, masterA := 1 - t * w, luCache := none }

/-- External mutation of the particle T-matrix attribute after construction:
the Particle interface makes t_matrix settable, and no code in
linear_system.py reacts to such a change. -/
def set_t_matrix (s : LinearSystemModel) (t : ℚ) : LinearSystemModel :=
  { s with tmat := t }

/-- The LU branch of LinearSystem.solve: when no LU_piv attribute is present,
factorize the materialized master matrix and store the factorization;
otherwise use the stored one.  Returns the updated state and the
factorization handed to lu_solve. -/
def solve_lu (s : LinearSystemModel) : LinearSystemModel × ℚ :=
  match s.luCache with
  | none => ({ s with luCache := some (lu_factor s.masterA) }, lu_factor s.masterA)
  | some f => (s, f)

/-! ## Scattered-field construction (smuthi/linear_system.py lines 87-89
against smuthi/field_expansion.py, SphericalWaveExpansion.__init__) -/

/-- The keyword parameters accepted by SphericalWaveExpansion.__init__ in
smuthi/field_expansion.py: def __init__(self, k, l_max, m_max=None, type=None,
reference_point=None, valid_between=None).  There is no **kwargs catch-all. -/
def swe_init_params : List String :=
  ["k", "l_max", "m_max", "type", "reference_point", "valid_between"]

/-- The keyword arguments of the SphericalWaveExpansion call in
LinearSystem.solve: SphericalWaveExpansion(k=k, l_max=..., m_max=...,
kind="outgoing", reference_point=..., lower_z=loz, upper_z=upz). -/
def solve_scattered_field_call_kwargs : List String :=
  ["k", "l_max", "m_max", "kind", "reference_point", "lower_z", "upper_z"]

/-- Python accepts a keyword call exactly when every supplied keyword names a
declared parameter; otherwise the call raises a TypeError before the
constructor body runs. -/
def pythonCallAccepts (params kwargs : List String) : Bool :=
  kwargs.all (fun kw => params.contains kw)

/-! ## System matrices (smuthi/linear_system.py, SystemMatrix, CouplingMatrix,
TMatrix, MasterMatrix)

A system vector holds one contiguous coefficient block per particle; block i
has size blocksize(l_max_i, m_max_i).  The flat layout produced by index_block
is represented by the dependent pair of a particle number and a position
inside its block, so that slicing vector[index_block(i)] is restriction to the
fiber of particle i. -/

/-- Global index of a system coefficient vector: a particle number together
with a position inside the coefficient block of that particle, whose size b i
is the blocksize of the cutoffs of particle i. -/
abbrev SysIndex {P : ℕ} (b : Fin P → ℕ) := (i : Fin P) × Fin (b i)

section SystemMatrices

variable {R : Type} [CommRing R] {P : ℕ} {b : Fin P → ℕ}

/-- Translation of apply_t_matrix in TMatrix.__init__: each block of the
output is the T-matrix of the corresponding particle applied to the same
block of the input, with no cross-particle coupling. -/
def apply_t_matrix (tmats : (i : Fin P) → Matrix (Fin (b i)) (Fin (b i)) R)
    (v : SysIndex b → R) : SysIndex b → R :=
  fun n => ∑ c : Fin (b n.1), tmats n.1 n.2 c * v ⟨n.1, c⟩

/-- The matrix returned by t_matrix.linear_operator.matmat(A): apply_t_matrix
acts columnwise on the two-dimensional array A. -/
def t_matmat (tmats : (i : Fin P) → Matrix (Fin (b i)) (Fin (b i)) R)
    (A : Matrix (SysIndex b) (SysIndex b) R) : Matrix (SysIndex b) (SysIndex b) R :=
  Matrix.of fun n m => apply_t_matrix tmats (fun r => A r m) n

/-- Translation of the dense coupling matrix assembly in
CouplingMatrix.__init__: block (s1, s2) is the sum of the layer-mediated and
the direct coupling block of the particle pair, both produced by external
providers. -/
def coupling_matrix_dense
    (lblock dblock : (i : Fin P) → (j : Fin P) → Matrix (Fin (b i)) (Fin (b j)) R) :
    Matrix (SysIndex b) (SysIndex b) R :=
  Matrix.of fun n m => lblock n.1 m.1 n.2 m.2 + dblock n.1 m.1 n.2 m.2

/-- Translation of evaluate_coupling_matrix in CouplingMatrix.__init__ (the
matrix-free lookup path): for every pair (n1, n2) of combined multipole
indices, the rows listed in system_vector_index_list[n1] accumulate the lookup
block applied to the entries listed in system_vector_index_list[n2].  The
lookup entries (radial interpolant value times azimuthal phase) come from the
external lookup table and are received as a function of the pair of positions.
Iterations write disjoint accumulations, so the in-place += loop is the sum
of all contributions at each output index. -/
def evaluate_coupling_matrix (n_max : ℕ)
    (sysIdx : Fin n_max → List (SysIndex b))
    (entry : Fin n_max → Fin n_max → ℕ → ℕ → R)
    (v : SysIndex b → R) : SysIndex b → R :=
  fun j => ∑ n1 : Fin n_max, ∑ n2 : Fin n_max,
    (((List.range (sysIdx n1).length).map fun p =>
      if (sysIdx n1).get? p = some j then
        (((List.range (sysIdx n2).length).map fun q =>
          entry n1 n2 p q * (((sysIdx n2).get? q).map v).getD 0).sum)
      else 0).sum)

/-- Translation of the dense branch of MasterMatrix.__init__: the identity
matrix minus t_matrix.linear_operator.matmat applied to the dense coupling
matrix. -/
def master_matrix_dense (tmats : (i : Fin P) → Matrix (Fin (b i)) (Fin (b i)) R)
    (W : Matrix (SysIndex b) (SysIndex b) R) : Matrix (SysIndex b) (SysIndex b) R :=
  1 - t_matmat tmats W

/-- Translation of apply_master_matrix in the matrix-free branch of
MasterMatrix.__init__: the input vector minus the T operator applied to the
coupling operator applied to the input vector. -/
def master_matrix_free (tmats : (i : Fin P) → Matrix (Fin (b i)) (Fin (b i)) R)
    (wapply : (SysIndex b → R) → (SysIndex b → R))
    (v : SysIndex b → R) : SysIndex b → R :=
  v - apply_t_matrix tmats (wapply v)

end SystemMatrices

/-- A concrete spherical wave expansion used as a witness input. -/
def swe_w1 : SphericalWaveExpansion :=
  { k := (1, 0), l_max := 1, m_max := 1, coefficients := [],
    type := some "outgoing", reference_point := (0, 0, 0),
    valid_between := some (0, 1) }

/-- A concrete spherical wave expansion differing from swe_w1 in the
wavenumber only. -/
def swe_w2 : SphericalWaveExpansion :=
  { k := (2, 0), l_max := 1, m_max := 1, coefficients := [],
    type := some "outgoing", reference_point := (0, 0, 0),
    valid_between := some (0, 1) }

/-- A concrete plane wave expansion used as a witness input. -/
def pwe_w1 : PlaneWaveExpansion :=
  { k := (1, 0), k_parallel := [(1, 0)], azimuthal_angles := [0],
    type := some "upgoing", reference_point := (0, 0, 0),
    valid_between := some (0, 1), coefficients := fun _ _ _ => (0, 0) }

/-- Spherical wave expansions with validity intervals [0, 2] and [1, 3] and
otherwise identical attributes. -/
def swe_v1 : SphericalWaveExpansion :=
  { k := (1, 0), l_max := 1, m_max := 1, coefficients := [],
    type := some "outgoing", reference_point := (0, 0, 0),
    valid_between := some (0, 2) }

/-- See swe_v1. -/
def swe_v2 : SphericalWaveExpansion :=
  { k := (1, 0), l_max := 1, m_max := 1, coefficients := [],
    type := some "outgoing", reference_point := (0, 0, 0),
    valid_between := some (1, 3) }

/-- Plane wave expansions with validity intervals [0, 2] and [1, 3] and
otherwise identical attributes. -/
def pwe_v1 : PlaneWaveExpansion :=
  { k := (1, 0), k_parallel := [(1, 0)], azimuthal_angles := [0],
    type := some "upgoing", reference_point := (0, 0, 0),
    valid_between := some (0, 2), coefficients := fun _ _ _ => (0, 0) }

/-- See pwe_v1. -/
def pwe_v2 : PlaneWaveExpansion :=
  { k := (1, 0), k_parallel := [(1, 0)], azimuthal_angles := [0],
    type := some "upgoing", reference_point := (0, 0, 0),
    valid_between := some (1, 3), coefficients := fun _ _ _ => (0, 0) }

/-- Whether a fallible computation returned normally (no exception raised). -/
def exceptIsOk {ε α : Type} : Except ε α → Bool
  | .ok _ => true
  | .error _ => false

/-! ## Theorems -/

/-! ### Index mapper lemmas -/

lemma multi_eq (tau l m l_max m_max : ℤ) :
    multi_to_single_index tau l m l_max m_max
      = tau * tau_blocksize l_max m_max + degree_offset m_max l + m + min l m_max := rfl

lemma degree_offset_one {m_max : ℤ} (hm : 0 ≤ m_max) : degree_offset m_max 1 = 0 := by
  unfold degree_offset
  rw [if_pos (by omega : (1 : ℤ) - 1 ≤ m_max)]
  ring

lemma degree_offset_succ {m_max : ℤ} (_hm : 1 ≤ m_max) {l : ℤ} (hl : 1 ≤ l) :
    degree_offset m_max (l + 1) = degree_offset m_max l + 2 * min l m_max + 1 := by
  unfold degree_offset
  split_ifs with h1 h2 h2
  · rw [min_eq_left (by omega)]
    ring
  · omega
  · rw [min_eq_right (by omega)]
    have hcase : l = m_max + 1 := by omega
    subst hcase
    ring
  · rw [min_eq_right (by omega)]
    ring

lemma degree_offset_top {l_max m_max : ℤ} (_hm : 1 ≤ m_max) (hlm : m_max ≤ l_max) :
    degree_offset m_max (l_max + 1) = tau_blocksize l_max m_max := by
  unfold degree_offset tau_blocksize
  split_ifs with h1
  · have hcase : l_max = m_max := by omega
    subst hcase
    ring
  · ring

lemma degree_offset_nonneg {m_max : ℤ} (hm : 1 ≤ m_max) {l : ℤ} (hl : 1 ≤ l) :
    0 ≤ degree_offset m_max l := by
  unfold degree_offset
  split_ifs with h
  · exact mul_nonneg (by omega) (by omega)
  · have ha : 0 ≤ m_max * (m_max + 2) := mul_nonneg (by omega) (by omega)
    have hb : 0 ≤ (l - 1 - m_max) * (2 * m_max + 1) := mul_nonneg (by omega) (by omega)
    linarith

lemma degree_offset_mono {m_max : ℤ} (hm : 1 ≤ m_max) {l l' : ℤ} (hl : 1 ≤ l)
    (hll : l ≤ l') : degree_offset m_max l ≤ degree_offset m_max l' := by
  refine Int.le_induction (P := fun x => degree_offset m_max l ≤ degree_offset m_max x)
    (le_refl _) ?_ l' hll
  intro n hn ih
  have hstep := degree_offset_succ hm (show (1 : ℤ) ≤ n by omega)
  have hmin : (1 : ℤ) ≤ min n m_max := le_min (by omega) hm
  linarith

lemma inner_bounds {l_max m_max : ℤ} (hm : 1 ≤ m_max) (hlm : m_max ≤ l_max)
    {l m : ℤ} (hl1 : 1 ≤ l) (hl2 : l ≤ l_max) (hmle : |m| ≤ min l m_max) :
    0 ≤ degree_offset m_max l + m + min l m_max ∧
      degree_offset m_max l + m + min l m_max < tau_blocksize l_max m_max := by
  have habs := abs_le.mp hmle
  have h0 : 0 ≤ degree_offset m_max l := degree_offset_nonneg hm hl1
  have hsucc := degree_offset_succ hm hl1
  have hmono : degree_offset m_max (l + 1) ≤ degree_offset m_max (l_max + 1) :=
    degree_offset_mono hm (by omega) (by omega)
  have htop := degree_offset_top hm hlm
  constructor
  · linarith [habs.1]
  · linarith [habs.2]

lemma blocksize_eq_two_tau {l_max m_max : ℤ} (hm : 1 ≤ m_max) (hlm : m_max ≤ l_max) :
    blocksize l_max m_max = 2 * tau_blocksize l_max m_max := by
  have hsucc := degree_offset_succ hm (show (1 : ℤ) ≤ l_max by omega)
  have htop := degree_offset_top hm hlm
  have hmin : min l_max m_max = m_max := min_eq_right hlm
  rw [hmin] at hsucc
  unfold blocksize
  rw [multi_eq, hmin]
  linarith

lemma inner_inj {m_max : ℤ} (hm : 1 ≤ m_max) {l1 m1 l2 m2 : ℤ}
    (h1 : 1 ≤ l1) (hm1 : |m1| ≤ min l1 m_max) (h2 : 1 ≤ l2) (hm2 : |m2| ≤ min l2 m_max)
    (heq : degree_offset m_max l1 + m1 + min l1 m_max
            = degree_offset m_max l2 + m2 + min l2 m_max) :
    l1 = l2 ∧ m1 = m2 := by
  have key : ∀ lA mA lB mB : ℤ, 1 ≤ lA → |mA| ≤ min lA m_max → |mB| ≤ min lB m_max →
      degree_offset m_max lA + mA + min lA m_max
        = degree_offset m_max lB + mB + min lB m_max →
      lA < lB → False := by
    intro lA mA lB mB hA hmA hmB he hlt
    have hsA := degree_offset_succ hm hA
    have hmono : degree_offset m_max (lA + 1) ≤ degree_offset m_max lB :=
      degree_offset_mono hm (by omega) (by omega)
    have habsA := abs_le.mp hmA
    have habsB := abs_le.mp hmB
    linarith [habsA.1, habsA.2, habsB.1, habsB.2]
  have hll : l1 = l2 := by
    rcases lt_trichotomy l1 l2 with h | h | h
    · exact absurd h (fun hh => key l1 m1 l2 m2 h1 hm1 hm2 heq hh)
    · exact h
    · exact absurd h (fun hh => key l2 m2 l1 m1 h2 hm2 hm1 heq.symm hh)
  subst hll
  exact ⟨rfl, by linarith⟩

lemma inner_surj {m_max : ℤ} (hm : 1 ≤ m_max) :
    ∀ L : ℤ, 1 ≤ L → ∀ r : ℤ, 0 ≤ r → r < degree_offset m_max (L + 1) →
      ∃ l mo : ℤ, 1 ≤ l ∧ l ≤ L ∧ |mo| ≤ min l m_max ∧
        degree_offset m_max l + mo + min l m_max = r := by
  intro L hL
  refine Int.le_induction
    (P := fun x => ∀ r : ℤ, 0 ≤ r → r < degree_offset m_max (x + 1) →
      ∃ l mo : ℤ, 1 ≤ l ∧ l ≤ x ∧ |mo| ≤ min l m_max ∧
        degree_offset m_max l + mo + min l m_max = r) ?_ ?_ L hL
  · intro r hr0 hr1
    have hs : degree_offset m_max (1 + 1) = degree_offset m_max 1 + 2 * min 1 m_max + 1 :=
      degree_offset_succ hm (le_refl 1)
    have h1 : degree_offset m_max 1 = 0 := degree_offset_one (by omega)
    have hmin : min (1 : ℤ) m_max = 1 := min_eq_left hm
    rw [hs, h1, hmin] at hr1
    refine ⟨1, r - 1, le_refl _, le_refl _, ?_, ?_⟩
    · rw [hmin, abs_le]
      omega
    · rw [h1, hmin]
      ring
  · intro n hn ih r hr0 hr1
    have hs : degree_offset m_max (n + 1 + 1)
        = degree_offset m_max (n + 1) + 2 * min (n + 1) m_max + 1 :=
      degree_offset_succ hm (by omega)
    by_cases hcase : r < degree_offset m_max (n + 1)
    · obtain ⟨l, mo, ha, hb, hc, hd⟩ := ih r hr0 hcase
      exact ⟨l, mo, ha, by omega, hc, hd⟩
    · push_neg at hcase
      have hmn : (1 : ℤ) ≤ min (n + 1) m_max := le_min (by omega) hm
      refine ⟨n + 1, r - degree_offset m_max (n + 1) - min (n + 1) m_max,
        by omega, le_refl _, ?_, by ring⟩
      rw [abs_le]
      constructor
      · linarith
      · linarith

/-- C2: for cutoffs with 1 <= m_max <= l_max, multi_to_single_index restricted
to the valid triples (tau, l, m) is a bijection onto the integer interval
from 0 to blocksize - 1, and blocksize has the closed form
2 * (m_max * (m_max + 2) + (l_max - m_max) * (2 * m_max + 1)); in particular
the number of valid triples equals blocksize. -/
theorem multi_to_single_index_bijection (l_max m_max : ℤ) (hm : 1 ≤ m_max)
    (hlm : m_max ≤ l_max) :
    Set.BijOn (fun t : ℤ × ℤ × ℤ => multi_to_single_index t.1 t.2.1 t.2.2 l_max m_max)
      {t | validTriple l_max m_max t} (Set.Ico 0 (blocksize l_max m_max))
    ∧ blocksize l_max m_max
        = 2 * (m_max * (m_max + 2) + (l_max - m_max) * (2 * m_max + 1)) := by
  have hbs := blocksize_eq_two_tau hm hlm
  refine ⟨⟨?_, ?_, ?_⟩, ?_⟩
  · -- maps valid triples into the target interval
    rintro ⟨tau, l, m⟩ ht
    obtain ⟨htau, hl1, hl2, hmm⟩ := ht
    have hb := inner_bounds hm hlm hl1 hl2 hmm
    simp only [Set.mem_Ico, multi_eq, hbs]
    rcases htau with h | h <;> subst h
    · constructor <;> linarith [hb.1, hb.2]
    · constructor <;> linarith [hb.1, hb.2]
  · -- injective on valid triples
    rintro ⟨t1, l1, m1⟩ hv1 ⟨t2, l2, m2⟩ hv2 heq
    obtain ⟨ht1, hl11, hl12, hm1⟩ := hv1
    obtain ⟨ht2, hl21, hl22, hm2⟩ := hv2
    simp only [multi_eq] at heq
    have hb1 := inner_bounds hm hlm hl11 hl12 hm1
    have hb2 := inner_bounds hm hlm hl21 hl22 hm2
    have htt : t1 = t2 := by
      rcases ht1 with h | h <;> rcases ht2 with h' | h' <;> subst h <;> subst h' <;>
        first
        | rfl
        | (exfalso; linarith [hb1.1, hb1.2, hb2.1, hb2.2])
    subst htt
    have hinner : degree_offset m_max l1 + m1 + min l1 m_max
        = degree_offset m_max l2 + m2 + min l2 m_max := by linarith
    obtain ⟨hl, hmo⟩ := inner_inj hm hl11 hm1 hl21 hm2 hinner
    subst hl
    subst hmo
    rfl
  · -- surjective onto the target interval
    intro n hn
    simp only [Set.mem_Ico, hbs] at hn
    by_cases hsplit : n < tau_blocksize l_max m_max
    · obtain ⟨l, mo, ha, hb, hc, hd⟩ := inner_surj hm l_max (by omega) n hn.1
        (by rw [degree_offset_top hm hlm]; exact hsplit)
      refine ⟨(0, l, mo), ⟨Or.inl rfl, ha, hb, hc⟩, ?_⟩
      simp only [multi_eq]
      linarith
    · push_neg at hsplit
      obtain ⟨l, mo, ha, hb, hc, hd⟩ := inner_surj hm l_max (by omega)
        (n - tau_blocksize l_max m_max) (by omega)
        (by rw [degree_offset_top hm hlm]; omega)
      refine ⟨(1, l, mo), ⟨Or.inr rfl, ha, hb, hc⟩, ?_⟩
      simp only [multi_eq]
      linarith
  · rw [hbs]
    unfold tau_blocksize
    ring

/-- Witness: the bijection theorem applied at the concrete cutoffs
l_max = 2 and m_max = 1. -/
theorem multi_to_single_index_bijection_witness :
    ((1 : ℤ) ≤ 1 ∧ (1 : ℤ) ≤ 2) ∧
    (Set.BijOn (fun t : ℤ × ℤ × ℤ => multi_to_single_index t.1 t.2.1 t.2.2 2 1)
        {t | validTriple 2 1 t} (Set.Ico 0 (blocksize 2 1))
      ∧ blocksize 2 1 = 2 * (1 * (1 + 2) + (2 - 1) * (2 * 1 + 1))) :=
  ⟨⟨by norm_num, by norm_num⟩,
    multi_to_single_index_bijection 2 1 (by norm_num) (by norm_num)⟩

/-! ### Master operator lemmas -/

lemma t_matmat_mulVec {R : Type} [CommRing R] {P : ℕ} {b : Fin P → ℕ}
    (tmats : (i : Fin P) → Matrix (Fin (b i)) (Fin (b i)) R)
    (W : Matrix (SysIndex b) (SysIndex b) R) (x : SysIndex b → R) :
    (t_matmat tmats W).mulVec x = apply_t_matrix tmats (W.mulVec x) := by
  funext n
  simp only [Matrix.mulVec, Matrix.dotProduct, t_matmat, Matrix.of_apply, apply_t_matrix,
    Finset.sum_mul]
  rw [Finset.sum_comm]
  refine Finset.sum_congr rfl fun c _ => ?_
  rw [Finset.mul_sum]
  refine Finset.sum_congr rfl fun m _ => ?_
  ring

lemma apply_t_matrix_zero {R : Type} [CommRing R] {P : ℕ} {b : Fin P → ℕ}
    (tmats : (i : Fin P) → Matrix (Fin (b i)) (Fin (b i)) R) :
    apply_t_matrix tmats (fun _ => (0 : R)) = fun _ => (0 : R) := by
  funext n
  simp [apply_t_matrix]

lemma evaluate_coupling_matrix_zero {R : Type} [CommRing R] {P : ℕ} {b : Fin P → ℕ}
    (n_max : ℕ) (sysIdx : Fin n_max → List (SysIndex b))
    (entry : Fin n_max → Fin n_max → ℕ → ℕ → R) :
    evaluate_coupling_matrix n_max sysIdx entry (fun _ => (0 : R)) = fun _ => (0 : R) := by
  funext j
  simp only [evaluate_coupling_matrix]
  refine Finset.sum_eq_zero fun n1 _ => Finset.sum_eq_zero fun n2 _ => ?_
  refine List.sum_eq_zero fun u hu => ?_
  obtain ⟨p, _, rfl⟩ := List.mem_map.mp hu
  split_ifs
  · refine List.sum_eq_zero fun w hw => ?_
    obtain ⟨q, _, rfl⟩ := List.mem_map.mp hw
    cases hq : (sysIdx n2).get? q <;> simp [hq]
  · rfl

/-- C3: the master operator built by MasterMatrix.__init__ computes
x - T (W x) on every input vector and maps the zero vector to the zero
vector, in the dense branch (materialized coupling matrix, master matrix
assembled as identity minus t_matmat of the coupling matrix) as well as in the
matrix-free branch (coupling applied through the lookup callback
evaluate_coupling_matrix). -/
theorem master_matrix_apply {P : ℕ} {b : Fin P → ℕ}
    (tmats : (i : Fin P) → Matrix (Fin (b i)) (Fin (b i)) ℂ) (n_max : ℕ)
    (sysIdx : Fin n_max → List (SysIndex b))
    (entry : Fin n_max → Fin n_max → ℕ → ℕ → ℂ) :
    (∀ (W : Matrix (SysIndex b) (SysIndex b) ℂ) (x : SysIndex b → ℂ),
        (master_matrix_dense tmats W).mulVec x
          = fun n => x n - apply_t_matrix tmats (W.mulVec x) n)
    ∧ (∀ W : Matrix (SysIndex b) (SysIndex b) ℂ,
        (master_matrix_dense tmats W).mulVec (fun _ => 0) = fun _ => 0)
    ∧ (∀ x : SysIndex b → ℂ,
        master_matrix_free tmats (evaluate_coupling_matrix n_max sysIdx entry) x
          = fun n => x n - apply_t_matrix tmats
              (evaluate_coupling_matrix n_max sysIdx entry x) n)
    ∧ master_matrix_free tmats (evaluate_coupling_matrix n_max sysIdx entry)
        (fun _ => 0) = fun _ => 0 := by
  have h1 : ∀ (W : Matrix (SysIndex b) (SysIndex b) ℂ) (x : SysIndex b → ℂ),
      (master_matrix_dense tmats W).mulVec x
        = fun n => x n - apply_t_matrix tmats (W.mulVec x) n := by
    intro W x
    funext n
    simp only [master_matrix_dense, Matrix.sub_mulVec, Matrix.one_mulVec,
      t_matmat_mulVec, Pi.sub_apply]
  refine ⟨h1, ?_, ?_, ?_⟩
  · intro W
    rw [h1]
    funext n
    have hz : W.mulVec (fun _ => (0 : ℂ)) = fun _ => (0 : ℂ) := by
      funext u
      simp [Matrix.mulVec, Matrix.dotProduct]
    rw [hz, apply_t_matrix_zero]
    simp
  · intro x
    funext n
    rfl
  · funext n
    show (fun _ => (0 : ℂ)) n - apply_t_matrix tmats
        (evaluate_coupling_matrix n_max sysIdx entry (fun _ => 0)) n = 0
    rw [evaluate_coupling_matrix_zero, apply_t_matrix_zero]
    simp

/-! ### Translation coefficient theorems -/

lemma list_foldl_add_eq_sum {α : Type} (f : α → Cplx) :
    ∀ (l : List α) (init : Cplx),
      l.foldl (fun A x => A + f x) init = init + (l.map f).sum := by
  intro l
  induction l with
  | nil => intro init; simp
  | cons x xs ih =>
      intro init
      simp only [List.foldl_cons, List.map_cons, List.sum_cons, ih, add_assoc]

/-- The outgoing-to-regular translation operator indeed returns the azimuthal
phase times the sum, over all degrees from |l1 - l2| to l1 + l2, of the
coupling coefficient (a5 for equal, b5 for mixed polarizations) times the
spherical Hankel value times the normalized Legendre value of order |m1 - m2|;
the loop accumulation equals the closed-form sum. -/
theorem translation_coefficients_svwf_closed_form (tau1 : ℤ) (l1 : ℕ) (m1 : ℤ)
    (tau2 : ℤ) (l2 : ℕ) (m2 : ℤ) (eimph : Cplx) (sph_hankel : ℕ → Cplx)
    (legendre : ℕ → ℕ → Cplx) (ab5 : ℕ → Cplx × Cplx) :
    translation_coefficients_svwf tau1 l1 m1 tau2 l2 m2 eimph sph_hankel legendre ab5
      = cmul eimph (((translationRange l1 l2).map
          (translationTerm tau1 tau2 m1 m2 sph_hankel legendre ab5)).sum) := by
  unfold translation_coefficients_svwf
  rw [list_foldl_add_eq_sum]
  have h0 : ((0, 0) : Cplx) = 0 := rfl
  rw [h0, zero_add]

/-- C4 (code evaluation): the outgoing-to-outgoing translation operator never
produces the translation coefficient.  Its accumulator is created by the
statement A = complex(0), complex(0), which builds the pair (0j, 0j) instead
of the scalar 0j, so the first iteration of the summation loop adds a tuple
and a complex number and raises a TypeError; the loop range from |l1 - l2| to
l1 + l2 is never empty, so the failure occurs for every input. -/
theorem translation_out_to_out_type_error (tau1 : ℤ) (l1 : ℕ) (m1 : ℤ) (tau2 : ℤ)
    (l2 : ℕ) (m2 : ℤ) (eimph : Cplx) (sph_bessel : ℕ → Cplx)
    (legendre : ℕ → ℕ → Cplx) (ab5 : ℕ → Cplx × Cplx) :
    translation_coefficients_svwf_out_to_out tau1 l1 m1 tau2 l2 m2 eimph sph_bessel
        legendre ab5
      = .error "TypeError: can only concatenate tuple (not complex) to tuple" := by
  have hdist : Nat.dist l1 l2 ≤ l1 + l2 := by
    unfold Nat.dist
    omega
  have hlen : l1 + l2 + 1 - Nat.dist l1 l2 = (l1 + l2 - Nat.dist l1 l2) + 1 := by omega
  unfold translation_coefficients_svwf_out_to_out translationRange
  rw [hlen, List.range'_succ]
  rfl

/-! ### Domain-validity check of the PWE to SWE conversion -/

/-- C8: pwe_to_swe_conversion raises the domain-validity error exactly when
the z-coordinate of the target reference point lies outside the closed
interval spanned by the declared validity bounds of the plane wave expansion;
inside the interval no such error is raised.  The check precedes the
coefficient computation, which the error branch never forces. -/
theorem pwe_to_swe_domain_check (pwe : PlaneWaveExpansion) (l_max m_max : ℤ)
    (rp : ℚ × ℚ × ℚ) (f : Unit → List Cplx) (lo hi : ℚ)
    (hv : pwe.valid_between = some (lo, hi)) :
    (pwe_to_swe_conversion pwe l_max m_max rp f
        = .error "reference point not inside domain of pwe validity")
      ↔ (rp.2.2 < min lo hi ∨ rp.2.2 > max lo hi) := by
  simp only [pwe_to_swe_conversion, hv]
  split_ifs with h
  · exact iff_of_true rfl h
  · exact iff_of_false (by simp) h

/-- Witness: the domain check applied to a concrete expansion whose validity
interval is [0, 1] and a reference point at height 2. -/
theorem pwe_to_swe_domain_check_witness :
    (pwe_to_swe_conversion
        { k := (1, 0), k_parallel := [(1, 0)], azimuthal_angles := [0],
          type := some "upgoing", reference_point := (0, 0, 0),
          valid_between := some (0, 1), coefficients := fun _ _ _ => (0, 0) }
        1 1 (0, 0, 2) (fun _ => [])
        = .error "reference point not inside domain of pwe validity")
      ↔ ((2 : ℚ) < min 0 1 ∨ (2 : ℚ) > max 0 1) :=
  pwe_to_swe_domain_check _ 1 1 (0, 0, 2) (fun _ => []) 0 1 rfl

/-! ### LU cache behaviour -/

/-- C9 counterexample: construct the system with T-matrix 2 and coupling 1
(master matrix -1), solve once (the factorization of -1 is cached), then
change the T-matrix to 3.  The next solve still uses the factorization of -1,
although the master matrix of the current data is 1 - 3 * 1 = -2, so the
cached factorization is not invalidated by the T-matrix change. -/
theorem lu_cache_stale_after_t_matrix_change :
    ((solve_lu (set_t_matrix (solve_lu (linear_system_init 2 1)).1 3)).2
        = lu_factor (1 - 2 * 1))
    ∧ (set_t_matrix (solve_lu (linear_system_init 2 1)).1 3).tmat = 3
    ∧ lu_factor (1 - 2 * 1)
        ≠ lu_factor (1 - (set_t_matrix (solve_lu (linear_system_init 2 1)).1 3).tmat
            * (set_t_matrix (solve_lu (linear_system_init 2 1)).1 3).wmat) := by
  refine ⟨rfl, rfl, ?_⟩
  simp only [lu_factor, linear_system_init, solve_lu, set_t_matrix]
  norm_num

/-- C9 amended: the LU factorization of the materialized master matrix is
computed on the first solve and cached; any later solve returns the cached
factorization and leaves the state unchanged; and no operation of the module
invalidates the cache, in particular setting a new T-matrix leaves the stale
cache in place. -/
theorem lu_cache_write_once_never_invalidated :
    (∀ t w : ℚ, (solve_lu (linear_system_init t w)).2 = lu_factor (1 - t * w)
      ∧ (solve_lu (linear_system_init t w)).1.luCache = some (lu_factor (1 - t * w)))
    ∧ (∀ (s : LinearSystemModel) (f : ℚ), s.luCache = some f → solve_lu s = (s, f))
    ∧ (∀ (s : LinearSystemModel) (t : ℚ), (set_t_matrix s t).luCache = s.luCache) := by
  refine ⟨fun t w => ⟨rfl, rfl⟩, ?_, fun s t => rfl⟩
  intro s f hf
  simp [solve_lu, hf]

/-- Witness: the cache-reuse clause applied to a concrete state that already
holds a cached factorization. -/
theorem lu_cache_write_once_never_invalidated_witness :
    ({ tmat := 2, wmat := 1, masterA := -1, luCache := some (-1) }
        : LinearSystemModel).luCache = some (-1)
    ∧ solve_lu { tmat := 2, wmat := 1, masterA := -1, luCache := some (-1) }
        = ({ tmat := 2, wmat := 1, masterA := -1, luCache := some (-1) }, -1) :=
  ⟨rfl, lu_cache_write_once_never_invalidated.2.1 _ (-1) rfl⟩

/-! ### Coupling matrix configuration errors -/

/-- C10: constructing a CouplingMatrix with store_matrix True and a lookup
resolution always raises (IndexError for an empty particle list,
NotImplementedError otherwise, also for exactly coplanar particles); moreover
a successful construction yields the dense matrix only for store_matrix True
without lookup resolution, and the matrix-free operator only for store_matrix
False. -/
theorem coupling_store_with_lookup_always_fails :
    (∀ (res : ℚ) (z_list : List ℚ),
      ∃ e, couplingMatrixInit true (some res) z_list = .error e)
    ∧ (∀ (store : Bool) (res : Option ℚ) (z_list : List ℚ)
        (strategy : CouplingStrategy),
        couplingMatrixInit store res z_list = .ok strategy →
        (strategy = .denseMatrix → store = true ∧ res = none)
        ∧ (strategy = .lookupOperator → store = false)) := by
  constructor
  · intro res z_list
    match z_list with
    | [] => exact ⟨"IndexError: list index out of range", rfl⟩
    | z0 :: rest =>
        by_cases hc : (z0 :: rest).count z0 = (z0 :: rest).length
        · refine ⟨"lookups not yet implemtned", ?_⟩
          simp only [couplingMatrixInit]
          rw [if_pos hc]
          simp
        · refine ⟨"3D lookup not yet implemented", ?_⟩
          simp only [couplingMatrixInit]
          rw [if_neg hc]
  · intro store res z_list strategy hok
    match store, res with
    | true, none =>
        simp only [couplingMatrixInit, if_true, Except.ok.injEq] at hok
        subst hok
        constructor
        · intro _
          exact ⟨rfl, rfl⟩
        · intro h
          exact nomatch h
    | false, none =>
        simp only [couplingMatrixInit, Bool.false_eq_true, if_false,
          Except.ok.injEq] at hok
        subst hok
        constructor
        · intro h
          exact nomatch h
        · intro _
          rfl
    | true, some r =>
        exfalso
        match z_list with
        | [] => exact nomatch hok
        | z0 :: rest =>
            simp only [couplingMatrixInit] at hok
            by_cases hc : (z0 :: rest).count z0 = (z0 :: rest).length
            · rw [if_pos hc] at hok
              exact nomatch hok
            · rw [if_neg hc] at hok
              exact nomatch hok
    | false, some r =>
        match z_list with
        | [] => exact nomatch hok
        | z0 :: rest =>
            simp only [couplingMatrixInit] at hok
            by_cases hc : (z0 :: rest).count z0 = (z0 :: rest).length
            · rw [if_pos hc] at hok
              simp only [Bool.false_eq_true, if_false, Except.ok.injEq] at hok
              subst hok
              constructor
              · intro h
                exact nomatch h
              · intro _
                rfl
            · rw [if_neg hc] at hok
              exact nomatch hok

/-- Witness: the classification clause applied to the concrete successful
construction of a dense coupling matrix. -/
theorem coupling_store_with_lookup_always_fails_witness :
    couplingMatrixInit true none [] = .ok .denseMatrix
    ∧ ((CouplingStrategy.denseMatrix = .denseMatrix
          → true = true ∧ (none : Option ℚ) = none)
        ∧ (CouplingStrategy.denseMatrix = .lookupOperator → true = false)) :=
  ⟨rfl, coupling_store_with_lookup_always_fails.2 true none [] .denseMatrix rfl⟩

/-! ### Scattered-field constructor call -/

/-- C1 (code evaluation): the call that LinearSystem.solve issues to build
each scattered_field passes the keywords kind, lower_z and upper_z, none of
which is a parameter of SphericalWaveExpansion.__init__ in
smuthi/field_expansion.py, so Python rejects the call with a TypeError and the
scattered field is never constructed or assigned. -/
theorem scattered_field_constructor_call_mismatch :
    pythonCallAccepts swe_init_params solve_scattered_field_call_kwargs = false
    ∧ solve_scattered_field_call_kwargs.contains "kind" = true
    ∧ swe_init_params.contains "kind" = false
    ∧ swe_init_params.contains "lower_z" = false
    ∧ swe_init_params.contains "upper_z" = false := by
  refine ⟨rfl, rfl, rfl, rfl, rfl⟩

/-! ### Solver strategy dispatch -/

/-- C5 counterexample: with an empty particle list the solver dispatch in
LinearSystem.solve is skipped by the positive-count guard, so requesting the
direct LU solve while the coupling operator is matrix-free (store_matrix
False without lookup resolution builds the callback operator) raises no
error, contrary to the claim that it always does. -/
theorem lu_without_dense_empty_list_no_error :
    couplingMatrixInit false none [] = .ok .lookupOperator
    ∧ masterIsDense .lookupOperator = false
    ∧ solveStrategyCheck 0 .lookupOperator "LU" = .ok () :=
  ⟨rfl, rfl, rfl⟩

/-- C5 amended: for a nonempty particle list, requesting the direct LU solve
with a non-materialized coupling operator always raises the configuration
error, and requesting lookup-accelerated coupling for a particle list whose
z-coordinates are not all equal always raises at construction time; in
neither case does another strategy run. -/
theorem solve_strategy_fail_fast :
    (∀ (n : ℕ) (strategy : CouplingStrategy), 0 < n → masterIsDense strategy = false →
      solveStrategyCheck n strategy "LU"
        = .error "LU factorization only possible with the option \"store coupling matrix\".")
    ∧ (∀ (store : Bool) (res : ℚ) (z0 : ℚ) (rest : List ℚ),
        (∃ z ∈ z0 :: rest, z ≠ z0) →
        couplingMatrixInit store (some res) (z0 :: rest)
          = .error "3D lookup not yet implemented") := by
  constructor
  · intro n strategy hn hd
    cases strategy with
    | denseMatrix => exact nomatch hd
    | lookupOperator => simp [solveStrategyCheck, hn, masterIsDense]
  · intro store res z0 rest hz
    obtain ⟨z, hzmem, hzne⟩ := hz
    have hc : ¬ (z0 :: rest).count z0 = (z0 :: rest).length := by
      intro h
      exact hzne ((List.count_eq_length.mp h) z hzmem).symm
    simp only [couplingMatrixInit]
    rw [if_neg hc]

/-- Witness: the fail-fast theorem applied to a one-particle system with the
matrix-free operator, and to the non-coplanar height list [0, 1]. -/
theorem solve_strategy_fail_fast_witness :
    (0 < 1 ∧ masterIsDense .lookupOperator = false
      ∧ solveStrategyCheck 1 .lookupOperator "LU"
          = .error "LU factorization only possible with the option \"store coupling matrix\".")
    ∧ ((∃ z ∈ (0 : ℚ) :: [1], z ≠ 0)
      ∧ couplingMatrixInit true (some 1) ((0 : ℚ) :: [1])
          = .error "3D lookup not yet implemented") :=
  ⟨⟨Nat.one_pos, rfl,
      solve_strategy_fail_fast.1 1 .lookupOperator Nat.one_pos rfl⟩,
    ⟨⟨1, by simp, by norm_num⟩,
      solve_strategy_fail_fast.2 true 1 0 [1] ⟨1, by simp, by norm_num⟩⟩⟩

/-! ### Addition of consistent expansions -/

lemma npAllEq_self {α : Type} [DecidableEq α] (xs : List α) :
    npAllEq xs xs = .ok true := by
  match xs with
  | [] => rfl
  | [x] => simp [npAllEq]
  | x :: y :: rest => simp [npAllEq]

lemma bcastDim_self (n : ℕ) : bcastDim n n = some n := by
  simp [bcastDim]

lemma npBroadcastAdd_equal_shapes (nk na : ℕ) (f g : ℕ → ℕ → ℕ → Cplx) :
    npBroadcastAdd nk na nk na f g
      = .ok (fun p i j => f p (if nk = 1 then 0 else i) (if na = 1 then 0 else j)
              + g p (if nk = 1 then 0 else i) (if na = 1 then 0 else j)) := by
  simp [npBroadcastAdd, bcastDim_self]

/-- C6: adding two consistent spherical wave expansions, or two consistent
plane wave expansions, both carrying validity intervals, yields an expansion
whose validity interval is the intersection: the maximum of the lower bounds
and the minimum of the upper bounds. -/
theorem add_validity_intersection :
    (∀ a b : SphericalWaveExpansion, a.k = b.k → a.l_max = b.l_max →
      a.m_max = b.m_max → a.type = b.type → a.reference_point = b.reference_point →
      ∀ alo ahi blo bhi : ℚ, a.valid_between = some (alo, ahi) →
        b.valid_between = some (blo, bhi) → alo ≤ ahi → blo ≤ bhi →
        ∃ s, sweAdd a b = .ok s
          ∧ s.valid_between = some (max alo blo, min ahi bhi))
    ∧ (∀ a b : PlaneWaveExpansion, a.k = b.k → a.k_parallel = b.k_parallel →
      a.azimuthal_angles = b.azimuthal_angles → a.type = b.type →
      a.reference_point = b.reference_point →
      ∀ alo ahi blo bhi : ℚ, a.valid_between = some (alo, ahi) →
        b.valid_between = some (blo, bhi) → alo ≤ ahi → blo ≤ bhi →
        ∃ p, pweAdd a b = .ok p
          ∧ p.valid_between = some (max alo blo, min ahi bhi)) := by
  constructor
  · intro a b hk hl hm ht hr alo ahi blo bhi hav hbv hao hbo
    have hcond : a.k = b.k ∧ a.l_max = b.l_max ∧ a.m_max = b.m_max ∧ a.type = b.type
        ∧ a.reference_point = b.reference_point := ⟨hk, hl, hm, ht, hr⟩
    unfold sweAdd
    rw [if_pos hcond]
    simp only [hav, hbv]
    refine ⟨_, rfl, ?_⟩
    show some (max (min alo ahi) (min blo bhi), min (max alo ahi) (max blo bhi))
        = some (max alo blo, min ahi bhi)
    rw [min_eq_left hao, min_eq_left hbo, max_eq_right hao, max_eq_right hbo]
  · intro a b hk hkp haz ht hr alo ahi blo bhi hav hbv hao hbo
    have hg : pweGuard a b = .ok true := by
      simp [pweGuard, hk, hkp, haz, ht, hr, npAllEq_self]
    unfold pweAdd
    rw [hg]
    simp only [hav, hbv, hkp, haz, npBroadcastAdd_equal_shapes]
    refine ⟨_, rfl, ?_⟩
    show some (max (min alo ahi) (min blo bhi), min (max alo ahi) (max blo bhi))
        = some (max alo blo, min ahi bhi)
    rw [min_eq_left hao, min_eq_left hbo, max_eq_right hao, max_eq_right hbo]

/-- Witness: the intersection theorem applied to concrete consistent pairs,
with intervals [0, 2] and [1, 3]. -/
theorem add_validity_intersection_witness :
    (∃ s, sweAdd swe_v1 swe_v2 = .ok s
      ∧ s.valid_between = some (max 0 1, min 2 3))
    ∧ (∃ p, pweAdd pwe_v1 pwe_v2 = .ok p
      ∧ p.valid_between = some (max 0 1, min 2 3)) :=
  ⟨add_validity_intersection.1 swe_v1 swe_v2 rfl rfl rfl rfl rfl 0 2 1 3 rfl rfl
      (by norm_num) (by norm_num),
    add_validity_intersection.2 pwe_v1 pwe_v2 rfl rfl rfl rfl rfl 0 2 1 3 rfl rfl
      (by norm_num) (by norm_num)⟩

/-! ### Addition of inconsistent expansions -/

/-- C7 counterexample: two plane wave expansions whose in-plane wavenumber
grids differ as sequences (a single sample versus that sample repeated twice)
are added without any error: the numpy elementwise comparison broadcasts the
single sample, every comparison is True, and the guard passes. -/
theorem pwe_add_broadcast_grid_mismatch_no_error :
    ({ k := (1, 0), k_parallel := [(5, 0)], azimuthal_angles := [0],
       type := some "upgoing", reference_point := (0, 0, 0),
       valid_between := some (0, 1), coefficients := fun _ _ _ => (0, 0) }
        : PlaneWaveExpansion).k_parallel
      ≠ ({ k := (1, 0), k_parallel := [(5, 0), (5, 0)], azimuthal_angles := [0],
           type := some "upgoing", reference_point := (0, 0, 0),
           valid_between := some (0, 1), coefficients := fun _ _ _ => (0, 0) }
          : PlaneWaveExpansion).k_parallel
    ∧ exceptIsOk (pweAdd
        { k := (1, 0), k_parallel := [(5, 0)], azimuthal_angles := [0],
          type := some "upgoing", reference_point := (0, 0, 0),
          valid_between := some (0, 1), coefficients := fun _ _ _ => (0, 0) }
        { k := (1, 0), k_parallel := [(5, 0), (5, 0)], azimuthal_angles := [0],
          type := some "upgoing", reference_point := (0, 0, 0),
          valid_between := some (0, 1), coefficients := fun _ _ _ => (0, 0) })
        = true := by
  constructor
  · decide
  · rfl

/-- C7 amended: adding spherical wave expansions with any mismatch among
wavenumber, cutoffs, kind and reference point always raises immediately with
no partly built result; adding plane wave expansions raises whenever the
wavenumber, direction or reference point differ, whenever a sample-grid
comparison is not numpy-broadcast-equal by value, or whenever a validity
interval is missing — equivalently, a successful addition forces all those
consistency conditions; but a sample-grid mismatch that is broadcast-equal in
values escapes detection. -/
theorem add_mismatch_fails :
    (∀ a b : SphericalWaveExpansion,
      ¬(a.k = b.k ∧ a.l_max = b.l_max ∧ a.m_max = b.m_max ∧ a.type = b.type
          ∧ a.reference_point = b.reference_point) →
      sweAdd a b = .error "SphericalWaveExpansions are inconsistent.")
    ∧ (∀ a b : PlaneWaveExpansion, exceptIsOk (pweAdd a b) = true →
        a.k = b.k ∧ a.type = b.type ∧ a.reference_point = b.reference_point
        ∧ npAllEq a.k_parallel b.k_parallel = .ok true
        ∧ npAllEq a.azimuthal_angles b.azimuthal_angles = .ok true
        ∧ a.valid_between.isSome = true ∧ b.valid_between.isSome = true) := by
  constructor
  · intro a b hmis
    unfold sweAdd
    rw [if_neg hmis]
  · intro a b hok
    unfold pweAdd at hok
    cases hguard : pweGuard a b with
    | error e => rw [hguard] at hok; exact nomatch hok
    | ok g =>
        cases g with
        | false => rw [hguard] at hok; exact nomatch hok
        | true =>
            have hparts : a.k = b.k ∧ a.type = b.type ∧ a.reference_point = b.reference_point
                ∧ npAllEq a.k_parallel b.k_parallel = .ok true
                ∧ npAllEq a.azimuthal_angles b.azimuthal_angles = .ok true := by
              unfold pweGuard at hguard
              by_cases hk : a.k = b.k
              · rw [if_pos hk] at hguard
                cases he1 : npAllEq a.k_parallel b.k_parallel with
                | error e => rw [he1] at hguard; exact nomatch hguard
                | ok e1 =>
                    cases e1 with
                    | false => rw [he1] at hguard; exact nomatch hguard
                    | true =>
                        rw [he1] at hguard
                        cases he2 : npAllEq a.azimuthal_angles b.azimuthal_angles with
                        | error e => rw [he2] at hguard; exact nomatch hguard
                        | ok e2 =>
                            cases e2 with
                            | false => rw [he2] at hguard; exact nomatch hguard
                            | true =>
                                rw [he2] at hguard
                                simp only [Except.ok.injEq, Bool.and_eq_true,
                                  decide_eq_true_eq] at hguard
                                exact ⟨hk, hguard.1, hguard.2, rfl, rfl⟩
              · rw [if_neg hk] at hguard
                exact nomatch hguard
            rw [hguard] at hok
            cases hva : a.valid_between with
            | none => rw [hva] at hok; exact nomatch hok
            | some av =>
                cases hvb : b.valid_between with
                | none => rw [hva, hvb] at hok; exact nomatch hok
                | some bv =>
                    exact ⟨hparts.1, hparts.2.1, hparts.2.2.1, hparts.2.2.2.1,
                      hparts.2.2.2.2, rfl, rfl⟩

/-- Witness: the mismatch theorem applied to two spherical wave expansions
with different wavenumbers, and to a concrete successful plane wave addition
whose consistency facts it recovers. -/
theorem add_mismatch_fails_witness :
    sweAdd swe_w1 swe_w2 = .error "SphericalWaveExpansions are inconsistent."
    ∧ (pwe_w1.k = pwe_w1.k ∧ pwe_w1.type = pwe_w1.type
        ∧ pwe_w1.reference_point = pwe_w1.reference_point
        ∧ npAllEq pwe_w1.k_parallel pwe_w1.k_parallel = .ok true
        ∧ npAllEq pwe_w1.azimuthal_angles pwe_w1.azimuthal_angles = .ok true
        ∧ pwe_w1.valid_between.isSome = true
        ∧ pwe_w1.valid_between.isSome = true) :=
  ⟨add_mismatch_fails.1 swe_w1 swe_w2 (by decide),
    add_mismatch_fails.2 pwe_w1 pwe_w1 rfl⟩

end Smuthi
